import Mathlib

/-!
Shallow embedding of src/main.py, a sitemap-driven product scraper for a
single storefront.

Modelling conventions:
- File contents and HTTP bodies are Lean Strings.
- The filesystem is an association list from path to content together with a
  list of existing directories.  A World additionally records, in order, the
  URLs requested over the network, the file writes performed, and log lines
  standing for the script's console messages.
- The HTTP library (requests.get followed by raise_for_status) is an oracle
  of type Net; a transport failure and a non-success HTTP status both
  surface as Except.error, exactly the cases in which the Python code sees a
  requests.RequestException.
- The XML library (BeautifulSoup with the xml feature) is an oracle
  String to Xml, paired with an executable model of find_all over the text
  nodes of the parsed tree; json.load is an oracle String to Except String
  Json.  Both library calls are deterministic functions in Python, which the
  oracle-as-function modelling preserves.
- JSON numbers are modelled as integers (the serializer only needs the
  values that occur in the claims); json.dump with indent 2, ensure_ascii
  False and default key order is implemented executably below.
- Path manipulation (os.path.basename, dirname, join, splitext and Python
  str.split / str.endswith) is implemented executably on character lists,
  following the posixpath implementations.
-/

/-- Oracle for requests.get u followed by raise_for_status: ok body on a
2xx response, error for a transport failure or a non-success status. -/
def Net : Type := String → Except String String

structure FS where
  files : List (String × String)
  dirs : List String

def FS.read? (fs : FS) (p : String) : Option String :=
  match fs.files.find? (fun e => e.1 == p) with
  | some e => some e.2
  | none => none

def FS.write (fs : FS) (p c : String) : FS :=
  { fs with files := (p, c) :: fs.files.eraseP (fun e => e.1 == p) }

def FS.mkdir (fs : FS) (d : String) : FS :=
  { fs with dirs := if fs.dirs.contains d then fs.dirs else fs.dirs ++ [d] }

def FS.dirExists (fs : FS) (d : String) : Bool :=
  fs.dirs.contains d

/-- Run state: the filesystem plus event logs (network requests issued,
file writes performed, console messages), each in chronological order. -/
structure World where
  fs : FS
  requests : List String
  writes : List (String × String)
  logs : List String

def World.writeFile (w : World) (p c : String) : World :=
  { w with fs := w.fs.write p c, writes := w.writes ++ [(p, c)] }

def World.addLog (w : World) (s : String) : World :=
  { w with logs := w.logs ++ [s] }

/-- Splits a character list at its last slash: the first component is the
prefix up to and including the last slash (empty when there is no slash),
the second is the final, slash-free segment.  This is the common core of
os.path.basename, os.path.dirname and Python s.split with slash taken at
index -1. -/
def splitPath : List Char → List Char × List Char
  | [] => ([], [])
  | c :: cs =>
    match splitPath cs with
    | ([], b) => if c = '/' then (['/'], b) else ([], c :: b)
    | (d0 :: d1, b) => (c :: d0 :: d1, b)

/-- os.path.basename for posix paths. -/
def basename (p : String) : String := String.mk (splitPath p.data).2

def dropTrailingSlashes (l : List Char) : List Char :=
  (l.reverse.dropWhile (fun c => c == '/')).reverse

/-- os.path.dirname for posix paths: the prefix before the last slash, with
trailing slashes stripped unless the prefix consists only of slashes. -/
def dirname (p : String) : String :=
  let head := (splitPath p.data).1
  if head.isEmpty then ""
  else if head.all (fun c => c == '/') then String.mk head
  else String.mk (dropTrailingSlashes head)

/-- Splits a character list at its last dot, when one exists: (before,
from-the-last-dot).  Returns (l, empty) when there is no dot. -/
def splitAtLastDot : List Char → List Char × List Char
  | [] => ([], [])
  | c :: cs =>
    match splitAtLastDot cs with
    | (r, []) => if c = '.' then ([], '.' :: cs) else (c :: r, [])
    | (r, e0 :: e1) => (c :: r, e0 :: e1)

/-- The basename part of os.path.splitext: leading dots of the name never
start an extension, matching the posixpath implementation. -/
def splitextBase (b : List Char) : List Char × List Char :=
  let dots := b.takeWhile (fun c => c == '.')
  let rest := b.dropWhile (fun c => c == '.')
  match splitAtLastDot rest with
  | (r, e) => (dots ++ r, e)

/-- os.path.splitext for posix paths. -/
def splitext (p : String) : String × String :=
  match splitPath p.data with
  | (d, b) =>
    match splitextBase b with
    | (r, e) => (String.mk (d ++ r), String.mk e)

def startsWithSlash (s : String) : Bool :=
  match s.data with
  | [] => false
  | c :: _ => c == '/'

def endsWithSlash (s : String) : Bool :=
  match s.data.reverse with
  | [] => false
  | c :: _ => c == '/'

/-- os.path.join for posix paths, two arguments. -/
def pathJoin (a b : String) : String :=
  if startsWithSlash b then b
  else if a = "" || endsWithSlash a then a ++ b
  else a ++ "/" ++ b

/-- Python s.split with separator slash, taken at index -1 (the segment
after the last slash), as used for the product short name in
fetch_product_json. -/
def split_last (s : String) : String := String.mk (splitPath s.data).2

/-- Bool-valued list-of-characters check that the first argument starts the
second. -/
def isPre : List Char → List Char → Bool
  | [], _ => true
  | _ :: _, [] => false
  | p :: ps, c :: cs => p == c && isPre ps cs

/-- Python str.endswith. -/
def ends_with (s suf : String) : Bool :=
  isPre suf.data.reverse s.data.reverse

/-- Parsed XML tree as BeautifulSoup exposes it to the script: elements and
text nodes.  Attributes are irrelevant to the scraper and omitted. -/
inductive Xml where
  | text (s : String) : Xml
  | elem (tag : String) (children : List Xml) : Xml

mutual
/-- All text nodes of the tree in document order. -/
def textNodes : Xml → List String
  | Xml.text s => [s]
  | Xml.elem _ cs => textNodesList cs
def textNodesList : List Xml → List String
  | [] => []
  | x :: xs => textNodes x ++ textNodesList xs
end

/-- Does the pattern match a prefix of the text, where the pattern
character dot matches any character (the only regex metacharacter, besides
the trailing dot-star, appearing in the source pattern)? -/
def patHere : List Char → List Char → Bool
  | [], _ => true
  | _ :: _, [] => false
  | p :: ps, c :: cs => (p == '.' || p == c) && patHere ps cs

/-- re.search semantics: the pattern matches starting at some position of
the text.  The source pattern ends in dot-star, which changes no search
outcome, so the pattern passed here is the source pattern with that suffix
dropped. -/
def reSearch (pat : List Char) : List Char → Bool
  | [] => patHere pat []
  | c :: cs => patHere pat (c :: cs) || reSearch pat cs

/-- The product location pattern of src/main.py line 116, with the host
generalized the way section 4.2 of the spec states it; the script
instantiates host with futuresfins.com. -/
def productPattern (host : String) : String := "https://" ++ host ++ "/products/"

def matchesProduct (host : String) (s : String) : Bool :=
  reSearch (productPattern host).data s.data

/-- BeautifulSoup find_all with a compiled-regex string filter followed by
taking the text of each hit: the text nodes, in document order, on which
re.search succeeds. -/
def extract_urls (host : String) (doc : Xml) : List String :=
  (textNodes doc).filter (fun t => matchesProduct host t)

/-- JSON documents as json.load hands them to the script; numbers are
modelled as integers. -/
inductive Json where
  | null : Json
  | bool (b : Bool) : Json
  | num (n : Int) : Json
  | str (s : String) : Json
  | arr (xs : List Json) : Json
  | obj (kvs : List (String × Json)) : Json

/-- Left brace, written via its code point to keep it out of string
literals. -/
def lb : Char := Char.ofNat 123

/-- Right brace. -/
def rb : Char := Char.ofNat 125

def hexDigit (n : Nat) : Char :=
  if n < 10 then Char.ofNat (48 + n) else Char.ofNat (87 + n)

def hex4 (n : Nat) : String :=
  String.mk [hexDigit (n / 4096 % 16), hexDigit (n / 256 % 16),
             hexDigit (n / 16 % 16), hexDigit (n % 16)]

/-- Character escaping of the json encoder with ensure_ascii False: only
the quote, the backslash and control characters are escaped; everything
else, non-ASCII included, passes through unchanged. -/
def escChar (c : Char) : String :=
  if c = '"' then "\\\""
  else if c = '\\' then "\\\\"
  else if c = '\n' then "\\n"
  else if c = '\t' then "\\t"
  else if c = '\r' then "\\r"
  else if c.toNat = 8 then "\\b"
  else if c.toNat = 12 then "\\f"
  else if c.toNat < 32 then "\\u" ++ hex4 c.toNat
  else String.mk [c]

def jstring (s : String) : String :=
  "\"" ++ String.join (s.data.map escChar) ++ "\""

def intRepr : Int → String
  | Int.ofNat m => Nat.repr m
  | Int.negSucc m => "-" ++ Nat.repr (m + 1)

def spaces (n : Nat) : String := String.mk (List.replicate n ' ')

mutual
/-- json.dump with indent 2, ensure_ascii False, sort_keys left at its
False default: object keys are emitted in stored order.  The lvl argument
is the current nesting depth; with indent, the item separator is a comma
followed by a newline and the key separator is a colon and a space,
matching the encoder defaults under indent. -/
def jdump : Json → Nat → String
  | Json.null, _ => "null"
  | Json.bool true, _ => "true"
  | Json.bool false, _ => "false"
  | Json.num n, _ => intRepr n
  | Json.str s, _ => jstring s
  | Json.arr [], _ => "[]"
  | Json.arr (x :: xs), lvl =>
      "[\n" ++ jitems (x :: xs) (lvl + 1) ++ "\n" ++ spaces (2 * lvl) ++ "]"
  | Json.obj [], _ => String.mk [lb, rb]
  | Json.obj (kv :: kvs), lvl =>
      String.mk [lb] ++ "\n" ++ jpairs (kv :: kvs) (lvl + 1) ++ "\n"
        ++ spaces (2 * lvl) ++ String.mk [rb]
/-- The comma-newline separated items of a non-empty array body. -/
def jitems : List Json → Nat → String
  | [], _ => ""
  | [x], lvl => spaces (2 * lvl) ++ jdump x lvl
  | x :: y :: ys, lvl =>
      spaces (2 * lvl) ++ jdump x lvl ++ ",\n" ++ jitems (y :: ys) lvl
/-- The comma-newline separated key-value pairs of a non-empty object
body. -/
def jpairs : List (String × Json) → Nat → String
  | [], _ => ""
  | [(k, v)], lvl => spaces (2 * lvl) ++ jstring k ++ ": " ++ jdump v lvl
  | (k, v) :: p :: ps, lvl =>
      spaces (2 * lvl) ++ jstring k ++ ": " ++ jdump v lvl ++ ",\n"
        ++ jpairs (p :: ps) lvl
end

/-- json.dump of a whole document, as prettify_json_file calls it. -/
def json_dump (d : Json) : String := jdump d 0

/-- The sitemap URL hard-coded in the main block of src/main.py. -/
def sitemap_url : String :=
  "https://futuresfins.com/sitemap_products_1.xml?from=4539112718475&to=7713593983115"

/-- Default value of the filename parameter of fetch_sitemap and
save_sitemap. -/
def sitemap_cache : String := "product_sitemap.xml"

/-- src/main.py fetch_sitemap: return the cache file content when the cache
path exists, without touching the network; otherwise issue one HTTP GET and
return the body, propagating a request failure as an error. -/
def fetch_sitemap (net : Net) (sitemapUrl filename : String) (w : World) :
    Except String String × World :=
  match w.fs.read? filename with
  | some c => (Except.ok c, w)
  | none =>
    let w1 : World := { w with requests := w.requests ++ [sitemapUrl] }
    match net sitemapUrl with
    | Except.ok body => (Except.ok body, w1)
    | Except.error e => (Except.error e, w1)

/-- src/main.py save_sitemap: writes the sitemap content to the cache file.
The docstring of the Python function says the save happens only if the file
does not exist, but the implementation writes unconditionally, which this
definition reproduces. -/
def save_sitemap (content filename : String) (w : World) : World :=
  w.writeFile filename content

/-- The derived output name of prettify_json_file: the stem of the basename
with a -pretty suffix and a .json extension, joined back onto the directory
of the input path. -/
def pretty_name (filename : String) : String :=
  pathJoin (dirname filename) ((splitext (basename filename)).1 ++ "-pretty.json")

/-- src/main.py prettify_json_file: read the file, parse it with json.load,
and write the re-serialized document to the derived sibling path.  A parse
failure or a missing file is caught, logged and skipped. -/
def prettify_json_file (jload : String → Except String Json)
    (filename : String) (w : World) : World :=
  match w.fs.read? filename with
  | none => w.addLog ("error-processing:" ++ filename)
  | some content =>
    match jload content with
    | Except.error _ => w.addLog ("error-decoding:" ++ filename)
    | Except.ok data =>
      (w.writeFile (pretty_name filename) (json_dump data)).addLog
        ("prettified:" ++ pretty_name filename)

/-- The per-product output path of fetch_product_json. -/
def fetch_target (u : String) : String := "products/" ++ split_last u ++ ".json"

/-- src/main.py fetch_product_json: create the products directory on
demand, derive the short name and the JSON endpoint, issue the GET, and on
success write the response body verbatim; a request failure is caught and
logged, and the function always returns. -/
def fetch_product_json (net : Net) (product_url : String) (w : World) : World :=
  let w0 : World := { w with fs := w.fs.mkdir "products" }
  let json_url := product_url ++ ".json"
  let w1 : World := { w0 with requests := w0.requests ++ [json_url] }
  match net json_url with
  | Except.ok body =>
    (w1.writeFile (fetch_target product_url) body).addLog
      ("saved:" ++ split_last product_url)
  | Except.error e =>
    w1.addLog ("error-fetching:" ++ json_url ++ ":" ++ e)

/-- src/main.py fetch_and_parse_sitemap: obtain the sitemap content (cache
or network), save it, and extract the product URLs from the parsed XML. -/
def fetch_and_parse_sitemap (net : Net) (xparse : String → Xml) (w : World) :
    Except String (List String) × World :=
  match fetch_sitemap net sitemap_url sitemap_cache w with
  | (Except.error e, w1) => (Except.error e, w1)
  | (Except.ok content, w1) =>
    let w2 := save_sitemap content sitemap_cache w1
    (Except.ok (extract_urls "futuresfins.com" (xparse content)), w2)

/-- The for-loop over product URLs in the main block. -/
def fetchLoop (net : Net) (urls : List String) (w : World) : World :=
  urls.foldl (fun acc u => fetch_product_json net u acc) w

/-- The directory the main block scans for files to prettify. -/
def products_dir : String := "products/pretty/"

def stripPre : List Char → List Char → Option (List Char)
  | [], l => some l
  | _ :: _, [] => none
  | p :: ps, c :: cs => if p = c then stripPre ps cs else none

/-- os.listdir: the names (relative, slash-free, non-empty) of the entries
directly inside the directory. -/
def FS.listdir (fs : FS) (dir : String) : List String :=
  let pre := if endsWithSlash dir then dir.data else dir.data ++ ['/']
  fs.files.filterMap (fun e =>
    match stripPre pre e.1.data with
    | some rest =>
      if rest = [] ∨ '/' ∈ rest then none else some (String.mk rest)
    | none => none)

/-- The filename filter of the main block prettify loop: keep names ending
in .json but not in -pretty.json. -/
def keep_json (name : String) : Bool :=
  ends_with name ".json" && ! ends_with name "-pretty.json"

/-- The prettify pass of the main block: when the scanned directory exists,
run prettify_json_file on every kept entry, in listing order. -/
def prettifyPass (jload : String → Except String Json) (w : World) : World :=
  if w.fs.dirExists products_dir then
    ((w.fs.listdir products_dir).filter keep_json).foldl
      (fun acc name => prettify_json_file jload (pathJoin products_dir name) acc) w
  else w

/-- The main block of src/main.py: fetch and parse the sitemap (an error
here propagates and ends the run), optionally fetch every product, then run
the prettify pass. -/
def mainRun (net : Net) (xparse : String → Xml)
    (jload : String → Except String Json) (fetchProducts : Bool) (w : World) :
    Except String Unit × World :=
  match fetch_and_parse_sitemap net xparse w with
  | (Except.error e, w1) => (Except.error e, w1)
  | (Except.ok urls, w1) =>
    let w2 := if fetchProducts then fetchLoop net urls w1 else w1
    let w3 := prettifyPass jload w2
    (Except.ok (), w3)

/-- Oracle with the network down: every request fails. -/
def netDown : Net := fun _ => Except.error "connection-error"

/-- XML parse oracle returning a fixed empty document, for concrete runs
whose extraction result is irrelevant. -/
def constXml : String → Xml := fun _ => Xml.elem "urlset" []

/-- json.load oracle returning a fixed document, for concrete runs. -/
def okLoad : String → Except String Json := fun _ => Except.ok Json.null

/-- A world whose sitemap cache is already present. -/
def w_cached : World :=
  { fs := { files := [(sitemap_cache, "<urlset></urlset>")], dirs := [] },
    requests := [], writes := [], logs := [] }

/-- A world with an empty filesystem. -/
def w_empty : World :=
  { fs := { files := [], dirs := [] }, requests := [], writes := [], logs := [] }

/-- The sample sitemap document of spec section 8, as BeautifulSoup parses
it: two url entries, one product location and one non-product location. -/
def sampleDoc : Xml :=
  Xml.elem "urlset"
    [Xml.elem "url" [Xml.elem "loc" [Xml.text "https://site.com/products/a"]],
     Xml.elem "url" [Xml.elem "loc" [Xml.text "https://site.com/other/b"]]]

/-- Oracle with every request succeeding with a fixed body. -/
def netOk : Net := fun _ => Except.ok "BODY"

/-- json.load oracle that always fails to parse. -/
def loadFail : String → Except String Json := fun _ => Except.error "bad-json"

theorem mk_data (s : String) : String.mk s.data = s := rfl

theorem data_inj {s t : String} (h : s.data = t.data) : s = t := by
  cases s; cases t; exact congrArg String.mk h

theorem find_eraseP (l : List (String × String)) (p q : String) (h : q ≠ p) :
    (l.eraseP (fun e => e.1 == p)).find? (fun e => e.1 == q)
      = l.find? (fun e => e.1 == q) := by
  induction l with
  | nil => rfl
  | cons e t ih =>
    rcases eq_or_ne e.1 p with hp | hp
    · have h1 : (e.1 == p) = true := beq_iff_eq.mpr hp
      have h2 : (e.1 == q) = false := by
        refine beq_eq_false_iff_ne.mpr ?_
        rw [hp]
        exact fun hh => h hh.symm
      simp [List.eraseP_cons, h1, List.find?, h2]
    · have h1 : (e.1 == p) = false := beq_eq_false_iff_ne.mpr hp
      by_cases h2 : e.1 = q
      · have h3 : (e.1 == q) = true := beq_iff_eq.mpr h2
        simp [List.eraseP_cons, h1, List.find?, h3]
      · have h3 : (e.1 == q) = false := beq_eq_false_iff_ne.mpr h2
        simp [List.eraseP_cons, h1, List.find?, h3, ih]

theorem read_write_self (fs : FS) (p c : String) :
    (fs.write p c).read? p = some c := by
  simp [FS.write, FS.read?, List.find?]

theorem read_write_ne (fs : FS) (p c q : String) (h : q ≠ p) :
    (fs.write p c).read? q = fs.read? q := by
  have h1 : (p == q) = false := beq_eq_false_iff_ne.mpr (fun hh => h hh.symm)
  unfold FS.write FS.read?
  simp only [List.find?, h1]
  rw [find_eraseP fs.files p q h]

theorem splitPath_no_slash (l : List Char) (h : '/' ∉ l) : splitPath l = ([], l) := by
  induction l with
  | nil => rfl
  | cons c cs ih =>
    have hc : c ≠ '/' := fun hh => h (hh ▸ List.mem_cons_self c cs)
    have hcs : '/' ∉ cs := fun hh => h (List.mem_cons_of_mem c hh)
    simp [splitPath, ih hcs, hc]

theorem splitPath_snd_no_slash (l : List Char) : '/' ∉ (splitPath l).2 := by
  induction l with
  | nil => simp [splitPath]
  | cons c cs ih =>
    rcases hsp : splitPath cs with ⟨d, b⟩
    rw [hsp] at ih
    cases d with
    | nil =>
      by_cases hc : c = '/'
      · simpa [splitPath, hsp, hc] using ih
      · simp only [splitPath, hsp, hc, if_false]
        intro hmem
        rcases List.mem_cons.mp hmem with h1 | h1
        · exact hc h1.symm
        · exact ih h1
    | cons d0 d1 => simpa [splitPath, hsp] using ih

theorem splitPath_fst_ne_nil (l : List Char) (h : '/' ∈ l) : (splitPath l).1 ≠ [] := by
  induction l with
  | nil => cases h
  | cons c cs ih =>
    rcases hsp : splitPath cs with ⟨d, b⟩
    cases d with
    | nil =>
      by_cases hc : c = '/'
      · simp [splitPath, hsp, hc]
      · have hcs : '/' ∈ cs := by
          rcases List.mem_cons.mp h with h1 | h1
          · exact absurd h1.symm hc
          · exact h1
        have hne := ih hcs
        rw [hsp] at hne
        exact absurd rfl hne
    | cons d0 d1 => simp [splitPath, hsp]

theorem splitPath_append_slash (xs ys : List Char) (h : '/' ∉ ys) :
    (splitPath (xs ++ '/' :: ys)).2 = ys := by
  induction xs with
  | nil =>
    simp only [List.nil_append]
    simp [splitPath, splitPath_no_slash ys h]
  | cons x xs ih =>
    have hmem : '/' ∈ xs ++ '/' :: ys :=
      List.mem_append.mpr (Or.inr (List.mem_cons_self _ _))
    rcases hsp : splitPath (xs ++ '/' :: ys) with ⟨d, b⟩
    have hne := splitPath_fst_ne_nil _ hmem
    rw [hsp] at hne ih
    cases d with
    | nil => exact absurd rfl hne
    | cons d0 d1 =>
      show (splitPath (x :: (xs ++ '/' :: ys))).2 = ys
      simpa [splitPath, hsp] using ih

theorem data_empty : ("" : String).data = [] := rfl

theorem data_ne_nil_of_ne {s : String} (h : s ≠ "") : s.data ≠ [] := by
  intro hh
  exact h (data_inj (hh.trans data_empty.symm))

theorem endsWithSlash_decomp {a : String} (h : endsWithSlash a = true) :
    ∃ t : List Char, a.data = t ++ ['/'] := by
  unfold endsWithSlash at h
  rcases hr : a.data.reverse with _ | ⟨c, t⟩
  · rw [hr] at h
    cases h
  · rw [hr] at h
    have hc : c = '/' := beq_iff_eq.mp h
    refine ⟨t.reverse, ?_⟩
    have : a.data = (c :: t).reverse := by
      rw [← hr, List.reverse_reverse]
    rw [this, hc]
    simp

theorem basename_pathJoin (d s : String) (h1 : '/' ∉ s.data) (h2 : s ≠ "") :
    basename (pathJoin d s) = s := by
  have hsd : s.data ≠ [] := data_ne_nil_of_ne h2
  have hstart : startsWithSlash s = false := by
    unfold startsWithSlash
    rcases hd : s.data with _ | ⟨c, cs⟩
    · rfl
    · refine beq_eq_false_iff_ne.mpr ?_
      intro hc
      apply h1
      rw [hd, hc]
      exact List.mem_cons_self _ _
  unfold pathJoin
  rw [hstart]
  simp only [Bool.false_eq_true, if_false]
  by_cases hcond : (d = "" || endsWithSlash d) = true
  · rw [if_pos hcond]
    rcases Bool.or_eq_true_iff.mp hcond with hd0 | hds
    · have hd0' : d = "" := by simpa using hd0
      subst hd0'
      unfold basename
      rw [String.data_append, data_empty, List.nil_append,
          splitPath_no_slash s.data h1]
    · obtain ⟨t, ht⟩ := endsWithSlash_decomp hds
      unfold basename
      rw [String.data_append, ht]
      have : t ++ ['/'] ++ s.data = t ++ '/' :: s.data := by simp
      rw [this, splitPath_append_slash t s.data h1]
  · rw [if_neg hcond]
    unfold basename
    have hdata : (d ++ "/" ++ s).data = d.data ++ '/' :: s.data := by
      rw [String.data_append, String.data_append]
      simp [show ("/" : String).data = ['/'] from rfl]
    rw [hdata, splitPath_append_slash d.data s.data h1]

theorem splitAtLastDot_spec :
    ∀ l r e : List Char, splitAtLastDot l = (r, e) →
      r ++ e = l ∧ (e = [] ∨ ∃ t, e = '.' :: t) := by
  intro l
  induction l with
  | nil =>
    intro r e h
    simp [splitAtLastDot] at h
    obtain ⟨h1, h2⟩ := h
    subst h1
    subst h2
    simp
  | cons c cs ih =>
    intro r e h
    rcases hsp : splitAtLastDot cs with ⟨r0, e0⟩
    obtain ⟨ih1, ih2⟩ := ih r0 e0 hsp
    cases e0 with
    | nil =>
      by_cases hc : c = '.'
      · simp [splitAtLastDot, hsp, hc] at h
        obtain ⟨h1, h2⟩ := h
        subst h1
        subst h2
        exact ⟨by simp [hc], Or.inr ⟨cs, rfl⟩⟩
      · simp [splitAtLastDot, hsp, hc] at h
        obtain ⟨h1, h2⟩ := h
        subst h1
        subst h2
        refine ⟨?_, Or.inl rfl⟩
        rw [List.cons_append, ih1]
    | cons x xs =>
      simp [splitAtLastDot, hsp] at h
      obtain ⟨h1, h2⟩ := h
      subst h1
      subst h2
      refine ⟨?_, ?_⟩
      · rw [List.cons_append, ih1]
      · rcases ih2 with h3 | ⟨t, ht⟩
        · cases h3
        · exact Or.inr ⟨t, ht⟩

theorem data_mk (l : List Char) : (String.mk l).data = l := rfl

theorem splitextBase_spec (b : List Char) :
    (splitextBase b).1 ++ (splitextBase b).2 = b ∧
    ((splitextBase b).2 = [] ∨ ∃ t, (splitextBase b).2 = '.' :: t) := by
  obtain ⟨h1, h2⟩ := splitAtLastDot_spec (b.dropWhile (fun c => c == '.'))
      (splitAtLastDot (b.dropWhile (fun c => c == '.'))).1
      (splitAtLastDot (b.dropWhile (fun c => c == '.'))).2 rfl
  constructor
  · show (b.takeWhile (fun c => c == '.')
        ++ (splitAtLastDot (b.dropWhile (fun c => c == '.'))).1)
        ++ (splitAtLastDot (b.dropWhile (fun c => c == '.'))).2 = b
    rw [List.append_assoc, h1, List.takeWhile_append_dropWhile]
  · exact h2

theorem basename_no_slash (p : String) : '/' ∉ (basename p).data :=
  splitPath_snd_no_slash p.data

theorem splitext_no_slash (p : String) (h : '/' ∉ p.data) :
    splitext p = (String.mk (splitextBase p.data).1, String.mk (splitextBase p.data).2) := by
  have he : splitext p
      = (String.mk ((splitPath p.data).1 ++ (splitextBase (splitPath p.data).2).1),
         String.mk ((splitextBase (splitPath p.data).2).2)) := rfl
  rw [he, splitPath_no_slash p.data h]
  rfl

theorem splitext_decomp (b : String) (h : '/' ∉ b.data) :
    (splitext b).1.data ++ (splitext b).2.data = b.data ∧
    ((splitext b).2.data = [] ∨ ∃ t, (splitext b).2.data = '.' :: t) ∧
    '/' ∉ (splitext b).1.data := by
  obtain ⟨h1, h2⟩ := splitextBase_spec b.data
  rw [splitext_no_slash b h]
  simp only [data_mk]
  refine ⟨h1, h2, ?_⟩
  intro hm
  exact h (h1 ▸ List.mem_append.mpr (Or.inl hm))

theorem basename_pretty_name (f : String) :
    basename (pretty_name f) = (splitext (basename f)).1 ++ "-pretty.json" := by
  unfold pretty_name
  apply basename_pathJoin
  · rw [String.data_append]
    intro hmem
    rcases List.mem_append.mp hmem with hm | hm
    · exact (splitext_decomp (basename f) (basename_no_slash f)).2.2 hm
    · have hx : '/' ∉ ("-pretty.json" : String).data := by decide
      exact hx hm
  · intro hh
    have hd := congrArg String.data hh
    rw [String.data_append, data_empty] at hd
    exact absurd (List.append_eq_nil.mp hd).2 (by decide)

theorem pretty_name_ne (f : String) : pretty_name f ≠ f := by
  intro he
  have hb := basename_pretty_name f
  rw [he] at hb
  obtain ⟨h1, h2, _⟩ := splitext_decomp (basename f) (basename_no_slash f)
  have hd : (splitext (basename f)).1.data ++ (splitext (basename f)).2.data
      = (splitext (basename f)).1.data ++ ("-pretty.json" : String).data := by
    rw [h1]
    have hbd := congrArg String.data hb
    rw [String.data_append] at hbd
    exact hbd
  have hext := List.append_cancel_left hd
  rcases h2 with h3 | ⟨t, ht⟩
  · rw [h3] at hext
    exact absurd hext.symm (by decide)
  · rw [ht] at hext
    have h4 : ('.' :: t).head? = ("-pretty.json" : String).data.head? :=
      congrArg List.head? hext
    have h5 : ("-pretty.json" : String).data.head? = some '-' := by decide
    rw [h5] at h4
    simp at h4

theorem startsWithSlash_false {s : String} (h : '/' ∉ s.data) :
    startsWithSlash s = false := by
  unfold startsWithSlash
  rcases hd : s.data with _ | ⟨c, cs⟩
  · rfl
  · refine beq_eq_false_iff_ne.mpr ?_
    intro hc
    apply h
    rw [hd, hc]
    exact List.mem_cons_self _ _

theorem isPre_self_append (l m : List Char) : isPre l (l ++ m) = true := by
  induction l with
  | nil => rfl
  | cons c cs ih => simp [isPre, ih]

theorem ends_with_append (a b : String) : ends_with (a ++ b) b = true := by
  unfold ends_with
  rw [String.data_append, List.reverse_append]
  exact isPre_self_append _ _

theorem keep_json_append_pretty (x : String) :
    keep_json (x ++ "-pretty.json") = false := by
  unfold keep_json
  rw [ends_with_append]
  simp

theorem mkdir_contains (fs : FS) (d : String) :
    (fs.mkdir d).dirs.contains d = true := by
  show (if fs.dirs.contains d = true then fs.dirs else fs.dirs ++ [d]).contains d = true
  by_cases hc : fs.dirs.contains d = true
  · rw [if_pos hc]
    exact hc
  · rw [if_neg hc]
    simp

theorem prettify_ok (jload : String → Except String Json) (fn : String)
    (w : World) (c : String) (d : Json)
    (h1 : w.fs.read? fn = some c) (h2 : jload c = Except.ok d) :
    prettify_json_file jload fn w
      = (w.writeFile (pretty_name fn) (json_dump d)).addLog
          ("prettified:" ++ pretty_name fn) := by
  simp [prettify_json_file, h1, h2]

theorem fetch_product_requests (net : Net) (u : String) (w : World) :
    (fetch_product_json net u w).requests = w.requests ++ [u ++ ".json"] := by
  cases hn : net (u ++ ".json") with
  | ok body => simp [fetch_product_json, hn, World.writeFile, World.addLog]
  | error e => simp [fetch_product_json, hn, World.addLog]

/-- C1: for every run in which the sitemap cache file exists at the expected
path, fetch_sitemap returns exactly the bytes stored in that file and issues
no network request: the resulting world is the unchanged input world, so in
particular its request log is unchanged and the HTTP GET branch was not
executed. -/
theorem C1_cache_hit (net : Net) (u fn : String) (w : World) (c : String)
    (h : w.fs.read? fn = some c) :
    fetch_sitemap net u fn w = (Except.ok c, w) ∧
    (fetch_sitemap net u fn w).2.requests = w.requests := by
  have he : fetch_sitemap net u fn w = (Except.ok c, w) := by
    unfold fetch_sitemap
    rw [h]
  exact ⟨he, by rw [he]⟩

theorem C1_cache_hit_witness :
    fetch_sitemap netDown "u" sitemap_cache w_cached
      = (Except.ok "<urlset></urlset>", w_cached) ∧
    (fetch_sitemap netDown "u" sitemap_cache w_cached).2.requests
      = w_cached.requests :=
  C1_cache_hit netDown "u" sitemap_cache w_cached "<urlset></urlset>" rfl

/-- C2: for every sitemap document, extraction returns exactly the text
nodes matching the product pattern, in document order: the result length is
the number of matching nodes, the result is a sublist (hence in document
order) of the text nodes, every returned string matches, and on the spec's
sample document with host pattern site.com the result is exactly the single
product URL. -/
theorem C2_extraction (host : String) (doc : Xml) :
    (extract_urls host doc).length
      = (textNodes doc).countP (fun t => matchesProduct host t) ∧
    List.Sublist (extract_urls host doc) (textNodes doc) ∧
    (∀ u ∈ extract_urls host doc, matchesProduct host u = true) ∧
    extract_urls "site.com" sampleDoc = ["https://site.com/products/a"] := by
  refine ⟨?_, ?_, ?_, ?_⟩
  · rw [List.countP_eq_length_filter]
    rfl
  · exact List.filter_sublist _
  · intro u hu
    exact (List.mem_filter.mp hu).2
  · decide

theorem C2_extraction_witness :
    extract_urls "site.com" sampleDoc = ["https://site.com/products/a"] :=
  (C2_extraction "site.com" sampleDoc).2.2.2

/-- C3: prettifying is idempotent.  For a source file whose content parses,
the first run writes the serialized document to the derived target, and a
second run on the unchanged source file writes byte-identical content to
the same target: after either run the target holds exactly json_dump of
the parsed document. -/
theorem C3_idempotent (jload : String → Except String Json) (fn : String)
    (w : World) (c : String) (d : Json)
    (h1 : w.fs.read? fn = some c) (h2 : jload c = Except.ok d) :
    (prettify_json_file jload fn w).fs.read? (pretty_name fn)
      = some (json_dump d) ∧
    (prettify_json_file jload fn
        (prettify_json_file jload fn w)).fs.read? (pretty_name fn)
      = some (json_dump d) := by
  have hw1 := prettify_ok jload fn w c d h1 h2
  have hfs1 : (prettify_json_file jload fn w).fs
      = w.fs.write (pretty_name fn) (json_dump d) := by
    rw [hw1]
    rfl
  have hsrc : (prettify_json_file jload fn w).fs.read? fn = some c := by
    rw [hfs1, read_write_ne w.fs (pretty_name fn) (json_dump d) fn
      (pretty_name_ne fn).symm]
    exact h1
  have hw2 := prettify_ok jload fn (prettify_json_file jload fn w) c d hsrc h2
  have hfs2 : (prettify_json_file jload fn (prettify_json_file jload fn w)).fs
      = (prettify_json_file jload fn w).fs.write (pretty_name fn) (json_dump d) := by
    rw [hw2]
    rfl
  constructor
  · rw [hfs1]
    exact read_write_self _ _ _
  · rw [hfs2]
    exact read_write_self _ _ _

theorem C3_idempotent_witness :
    (prettify_json_file okLoad "a.json"
        { fs := { files := [("a.json", "1")], dirs := [] },
          requests := [], writes := [], logs := [] }).fs.read?
        (pretty_name "a.json")
      = some (json_dump Json.null) ∧
    (prettify_json_file okLoad "a.json" (prettify_json_file okLoad "a.json"
        { fs := { files := [("a.json", "1")], dirs := [] },
          requests := [], writes := [], logs := [] })).fs.read?
        (pretty_name "a.json")
      = some (json_dump Json.null) :=
  C3_idempotent okLoad "a.json"
    { fs := { files := [("a.json", "1")], dirs := [] },
      requests := [], writes := [], logs := [] } "1" Json.null rfl rfl

/-- C4: for a file whose content parses as JSON, prettify_json_file writes
the serialized document to the sibling path that carries a -pretty suffix
before the .json extension (illustrated concretely), leaves the original
file present with unchanged content, touches no other path, serializes with
2-space indentation and stored key order (not sorted), and passes non-ASCII
characters through unescaped. -/
theorem C4_prettify (jload : String → Except String Json) (fn : String)
    (w : World) (c : String) (d : Json)
    (h1 : w.fs.read? fn = some c) (h2 : jload c = Except.ok d) :
    (prettify_json_file jload fn w).fs.read? (pretty_name fn)
      = some (json_dump d) ∧
    (prettify_json_file jload fn w).fs.read? fn = some c ∧
    (∀ p, p ≠ pretty_name fn →
      (prettify_json_file jload fn w).fs.read? p = w.fs.read? p) ∧
    pretty_name "products/pretty/x.json" = "products/pretty/x-pretty.json" ∧
    json_dump (Json.obj [("b", Json.num 1), ("a", Json.num 2)])
      = String.mk [lb] ++ "\n  \"b\": 1,\n  \"a\": 2\n" ++ String.mk [rb] ∧
    json_dump (Json.str "héllo") = "\"héllo\"" := by
  have hw1 := prettify_ok jload fn w c d h1 h2
  have hfs1 : (prettify_json_file jload fn w).fs
      = w.fs.write (pretty_name fn) (json_dump d) := by
    rw [hw1]
    rfl
  refine ⟨?_, ?_, ?_, by decide, by decide, by decide⟩
  · rw [hfs1]
    exact read_write_self _ _ _
  · rw [hfs1, read_write_ne w.fs (pretty_name fn) (json_dump d) fn
      (pretty_name_ne fn).symm]
    exact h1
  · intro p hp
    rw [hfs1, read_write_ne w.fs (pretty_name fn) (json_dump d) p hp]

theorem C4_prettify_witness :
    (prettify_json_file okLoad "a.json"
        { fs := { files := [("a.json", "1")], dirs := [] },
          requests := [], writes := [], logs := [] }).fs.read?
        (pretty_name "a.json")
      = some (json_dump Json.null) ∧
    (prettify_json_file okLoad "a.json"
        { fs := { files := [("a.json", "1")], dirs := [] },
          requests := [], writes := [], logs := [] }).fs.read? "a.json"
      = some "1" :=
  ⟨(C4_prettify okLoad "a.json"
      { fs := { files := [("a.json", "1")], dirs := [] },
        requests := [], writes := [], logs := [] } "1" Json.null rfl rfl).1,
   (C4_prettify okLoad "a.json"
      { fs := { files := [("a.json", "1")], dirs := [] },
        requests := [], writes := [], logs := [] } "1" Json.null rfl rfl).2.1⟩

/-- C5: product fetch failures are isolated.  fetch_product_json is a total
function of the world (a request failure is caught: the error branch merely
logs), and the batch loop attempts every URL: for any network behavior,
failures included, the request log after the loop contains the JSON
endpoint of every URL of the batch, in order. -/
theorem C5_isolation (net : Net) (urls : List String) (w : World) :
    (fetchLoop net urls w).requests
      = w.requests ++ urls.map (fun u => u ++ ".json") ∧
    (∀ u e w2, net (u ++ ".json") = Except.error e →
      fetch_product_json net u w2
        = { w2 with fs := w2.fs.mkdir "products",
                    requests := w2.requests ++ [u ++ ".json"],
                    logs := w2.logs
                      ++ ["error-fetching:" ++ (u ++ ".json") ++ ":" ++ e] }) := by
  constructor
  · induction urls generalizing w with
    | nil => simp [fetchLoop]
    | cons u us ih =>
      show (fetchLoop net us (fetch_product_json net u w)).requests = _
      rw [ih, fetch_product_requests]
      simp
  · intro u e w2 hn
    simp [fetch_product_json, hn, World.addLog]

theorem C5_isolation_witness :
    (fetchLoop netDown ["https://h/products/p", "https://h/products/q"]
        w_empty).requests
      = w_empty.requests
        ++ (["https://h/products/p", "https://h/products/q"].map
              (fun u => u ++ ".json")) :=
  (C5_isolation netDown ["https://h/products/p", "https://h/products/q"]
    w_empty).1

/-- C6: for a product page URL whose JSON endpoint responds successfully,
fetch_product_json derives the short name as the segment after the last
slash, requests exactly the URL with .json appended, writes the response
body verbatim to products slash name dot json, and the fixed output
directory products exists afterwards (created on demand). -/
theorem C6_product_fetch (net : Net) (u : String) (w : World) (body : String)
    (h : net (u ++ ".json") = Except.ok body) :
    (fetch_product_json net u w).fs.read? (fetch_target u) = some body ∧
    fetch_target u = "products/" ++ split_last u ++ ".json" ∧
    (fetch_product_json net u w).requests = w.requests ++ [u ++ ".json"] ∧
    (fetch_product_json net u w).fs.dirExists "products" = true ∧
    split_last "https://futuresfins.com/products/foo" = "foo" := by
  refine ⟨?_, rfl, fetch_product_requests net u w, ?_, by decide⟩
  · simp only [fetch_product_json, h]
    show FS.read? ((w.fs.mkdir "products").write (fetch_target u) body)
        (fetch_target u) = some body
    exact read_write_self _ _ _
  · simp only [fetch_product_json, h]
    show (((w.fs.mkdir "products").write (fetch_target u) body).dirs).contains
        "products" = true
    show ((w.fs.mkdir "products").dirs).contains "products" = true
    exact mkdir_contains _ _

theorem C6_product_fetch_witness :
    (fetch_product_json netOk "https://h/products/p" w_empty).fs.read?
        (fetch_target "https://h/products/p") = some "BODY" ∧
    fetch_target "https://h/products/p"
      = "products/" ++ split_last "https://h/products/p" ++ ".json" ∧
    (fetch_product_json netOk "https://h/products/p" w_empty).requests
      = w_empty.requests ++ ["https://h/products/p" ++ ".json"] ∧
    (fetch_product_json netOk "https://h/products/p" w_empty).fs.dirExists
        "products" = true ∧
    split_last "https://futuresfins.com/products/foo" = "foo" :=
  C6_product_fetch netOk "https://h/products/p" w_empty "BODY" rfl

/-- C7, counterexample run: with the sitemap cache already present at the
start of the run (and the network down, proving no fetch occurs), the
sitemap stage still performs exactly one write to the cache path, writing
back the same bytes.  This contradicts the claim that the cache file is
written only when it was absent at the start of the run, though the cache
content itself never changes. -/
theorem C7_unconditional_save :
    w_cached.fs.read? sitemap_cache = some "<urlset></urlset>" ∧
    ((fetch_and_parse_sitemap netDown constXml w_cached).2.writes.filter
        (fun e => e.1 == sitemap_cache)).length = 1 ∧
    (fetch_and_parse_sitemap netDown constXml w_cached).2.fs.read? sitemap_cache
      = some "<urlset></urlset>" ∧
    (fetch_and_parse_sitemap netDown constXml w_cached).2.requests = [] := by
  refine ⟨rfl, ?_, ?_, ?_⟩ <;> decide

/-- C8: when the cache is absent and the sitemap GET fails, the error is
fatal: mainRun propagates exactly that error, the filesystem, writes and
logs are untouched (so no product fetch and no prettify happened), and the
single appended request shows one attempt and no retry.  Conversely this is
the only fatal failure class: whenever the sitemap is obtainable (from the
cache or from the network), mainRun returns ok for every behavior of the
product endpoints and of json.load. -/
theorem C8_fatal (net : Net) (xp : String → Xml)
    (jl : String → Except String Json) (fp : Bool) (w : World) (e : String)
    (h1 : w.fs.read? sitemap_cache = none)
    (h2 : net sitemap_url = Except.error e) :
    mainRun net xp jl fp w
      = (Except.error e, { w with requests := w.requests ++ [sitemap_url] }) ∧
    (∀ (net2 : Net) (w2 : World),
      ((∃ b, net2 sitemap_url = Except.ok b) ∨
        (∃ c, w2.fs.read? sitemap_cache = some c)) →
      (mainRun net2 xp jl fp w2).1 = Except.ok ()) := by
  constructor
  · have hf : fetch_sitemap net sitemap_url sitemap_cache w
        = (Except.error e, { w with requests := w.requests ++ [sitemap_url] }) := by
      simp [fetch_sitemap, h1, h2]
    simp [mainRun, fetch_and_parse_sitemap, hf]
  · intro net2 w2 hok
    rcases hcache : w2.fs.read? sitemap_cache with _ | c2
    · rcases hok with ⟨b, hb⟩ | ⟨c, hc⟩
      · have hf : fetch_sitemap net2 sitemap_url sitemap_cache w2
            = (Except.ok b, { w2 with requests := w2.requests ++ [sitemap_url] }) := by
          simp [fetch_sitemap, hcache, hb]
        simp [mainRun, fetch_and_parse_sitemap, hf]
      · rw [hcache] at hc
        cases hc
    · have hf : fetch_sitemap net2 sitemap_url sitemap_cache w2
          = (Except.ok c2, w2) := by
        simp [fetch_sitemap, hcache]
      simp [mainRun, fetch_and_parse_sitemap, hf]

theorem C8_fatal_witness :
    mainRun netDown constXml okLoad true w_empty
      = (Except.error "connection-error",
          { w_empty with requests := w_empty.requests ++ [sitemap_url] }) :=
  (C8_fatal netDown constXml okLoad true w_empty "connection-error" rfl rfl).1

/-- C9: the directory scanned by the prettify pass is a differently named
directory from the fetch output directory; a path written by the product
fetch stage is never a path scanned by the prettify pass (scanned paths are
the listing-relative names, slash-free, joined onto products/pretty/),
so files fetched in a run are not among the files prettified in that run. -/
theorem C9_separate_dirs :
    products_dir ≠ "products" ∧
    (∀ u name : String, '/' ∉ name.data →
      fetch_target u ≠ pathJoin products_dir name) ∧
    (∀ (fs : FS) (dir : String), ∀ name ∈ fs.listdir dir, '/' ∉ name.data) := by
  refine ⟨by decide, ?_, ?_⟩
  · intro u name hn heq
    have hj : pathJoin products_dir name = products_dir ++ name := by
      unfold pathJoin
      rw [startsWithSlash_false hn]
      have hcond : (decide (products_dir = "") || endsWithSlash products_dir)
          = true := by decide
      simp only [Bool.false_eq_true, if_false]
      rw [if_pos hcond]
    rw [hj] at heq
    have hL : (fetch_target u).data
        = ("products/" : String).data
          ++ ((split_last u).data ++ (".json" : String).data) := by
      show ("products/" ++ split_last u ++ ".json").data = _
      rw [String.data_append, String.data_append, List.append_assoc]
    have hR : (products_dir ++ name).data
        = ("products/" : String).data ++ (("pretty/" : String).data ++ name.data) := by
      rw [String.data_append]
      have hp : products_dir.data
          = ("products/" : String).data ++ ("pretty/" : String).data := by decide
      rw [hp, List.append_assoc]
    have hd := congrArg String.data heq
    rw [hL, hR] at hd
    have hcanc := List.append_cancel_left hd
    have hslash : '/' ∈ ("pretty/" : String).data ++ name.data :=
      List.mem_append.mpr (Or.inl (by decide))
    rw [← hcanc] at hslash
    rcases List.mem_append.mp hslash with hm | hm
    · exact splitPath_snd_no_slash u.data hm
    · exact absurd hm (by decide)
  · intro fs dir name hmem
    simp only [FS.listdir, List.mem_filterMap] at hmem
    obtain ⟨en, _, he⟩ := hmem
    rcases hsp : stripPre
        (if endsWithSlash dir = true then dir.data else dir.data ++ ['/'])
        en.1.data with _ | rest
    · simp only [hsp] at he
      cases he
    · simp only [hsp] at he
      by_cases hcond : rest = [] ∨ '/' ∈ rest
      · rw [if_pos hcond] at he
        cases he
      · rw [if_neg hcond] at he
        have hname : String.mk rest = name := by
          injection he
        intro hm
        apply hcond
        right
        rw [← hname] at hm
        exact hm

/-- C10: the prettify loop filter keeps exactly the names ending in .json
but not in -pretty.json; the basename of every path produced by
prettification carries the -pretty.json suffix and is therefore never
selected, so repeated runs never prettify a prettified file and never
produce cascading names. -/
theorem C10_no_cascade :
    (∀ name : String, keep_json name = true ↔
      (ends_with name ".json" = true ∧ ends_with name "-pretty.json" = false)) ∧
    (∀ fn : String, keep_json (basename (pretty_name fn)) = false) ∧
    keep_json "x.json" = true ∧
    keep_json "x-pretty.json" = false ∧
    pretty_name (pathJoin products_dir "x.json")
      = "products/pretty/x-pretty.json" := by
  refine ⟨?_, ?_, by decide, by decide, by decide⟩
  · intro name
    simp [keep_json, Bool.and_eq_true]
  · intro fn
    rw [basename_pretty_name fn]
    exact keep_json_append_pretty _
